import Mathlib

/-!
Verification of the channel primitive of `asio/detail/channel_service.hpp`
(class `asio::detail::channel_service`).

The embedding models the value-channel implementation
(`implementation_type<T>`): the per-channel state record, the matching
engine (`do_put`, `do_get`) translated branch for branch from the source,
and the close/cancel/destroy lifecycle operations.  The executor is kept
abstract: each engine step returns, besides the successor state, the list
of completions handed to the executor (tagged immediate or deferred, in
the order the source posts them) and whether `work_started()` was called.
-/

namespace AsioChannel

/-- Error codes the channel delivers to operations.  `broken_pipe` is
`asio::error::broken_pipe` set by `do_put`/`do_get` on a closed channel and
by `close`; `operation_cancelled` is the error `cancel` delivers. -/
inductive ChannelError where
  | broken_pipe
  | operation_cancelled
deriving DecidableEq, Repr

/-- A queued producer operation (`channel_put_op`): the wrapped handler is
identified by `id`, and the operation carries the value being put. -/
structure Putter (T : Type) where
  id : Nat
  value : T
deriving DecidableEq, Repr

/-- The final, user-visible record of a resolved operation: a put carries
its error slot, a get carries its value slot and error slot
(`channel_op<T>::ec_` and the value set by `set_value`). -/
inductive Op (T : Type) where
  | put (id : Nat) (ec : Option ChannelError)
  | get (id : Nat) (value : Option T) (ec : Option ChannelError)
deriving DecidableEq, Repr

/-- How a resolved operation is handed to the executor:
`post_immediate_completion` or `post_deferred_completion`. -/
inductive DispatchKind where
  | immediate
  | deferred
deriving DecidableEq, Repr

/-- One hand-off of a resolved operation to the executor. -/
structure Completion (T : Type) where
  op : Op T
  kind : DispatchKind
deriving DecidableEq, Repr

/-- The state of one value channel: the fields of
`base_implementation_type` plus the `buffer_` of `implementation_type<T>`.
Getters waiting in `getters_` are represented by their handler ids (a
queued get carries no data yet); putters in `putters_` carry their value. -/
structure ChannelState (T : Type) where
  open_ : Bool
  max_buffer_size_ : Nat
  buffer_ : List T
  putters_ : List (Putter T)
  getters_ : List Nat
deriving DecidableEq, Repr

/-- The observable outcome of one engine step: the successor channel
state, the completions posted to the executor in order, and whether
`work_started()` was signalled. -/
structure StepOut (T : Type) where
  state : ChannelState T
  completions : List (Completion T)
  work_started : Bool
deriving DecidableEq, Repr

/-- `channel_service::construct`: a fresh channel is open, has the given
capacity, and empty buffer and wait queues. -/
def construct (T : Type) (max_buffer_size : Nat) : ChannelState T :=
  ⟨true, max_buffer_size, [], [], []⟩

/-- `channel_service::do_put` (channel_service.hpp, lines 179-210),
translated branch for branch:
closed → fail the putter with `broken_pipe`, immediate dispatch;
getter queued → move the value into the front getter, pop it, dispatch it
deferred and the putter immediate;
buffer not full → append the value, dispatch the putter immediate;
otherwise → park the putter and signal `work_started`. -/
def do_put {T : Type} (impl : ChannelState T) (putter : Putter T) : StepOut T :=
  if !impl.open_ then
    ⟨impl, [⟨.put putter.id (some .broken_pipe), .immediate⟩], false⟩
  else
    match impl.getters_ with
    | getter :: rest =>
        ⟨{ impl with getters_ := rest },
         [⟨.get getter (some putter.value) none, .deferred⟩,
          ⟨.put putter.id none, .immediate⟩],
         false⟩
    | [] =>
        if impl.buffer_.length < impl.max_buffer_size_ then
          ⟨{ impl with buffer_ := impl.buffer_ ++ [putter.value] },
           [⟨.put putter.id none, .immediate⟩],
           false⟩
        else
          ⟨{ impl with putters_ := impl.putters_ ++ [putter] }, [], true⟩

/-- `channel_service::do_get` (channel_service.hpp, lines 212-248),
translated branch for branch:
buffer non-empty → pop the front value into the getter; if a putter is
queued, move its value into the freed back slot, pop it and dispatch it
deferred; dispatch the getter immediate;
buffer empty, putter queued → move the putter's value directly into the
getter, pop the putter, dispatch it deferred and the getter immediate;
open → park the getter and signal `work_started`;
otherwise → fail the getter with `broken_pipe`, immediate dispatch. -/
def do_get {T : Type} (impl : ChannelState T) (getter : Nat) : StepOut T :=
  match impl.buffer_ with
  | v :: buf_rest =>
      match impl.putters_ with
      | p :: prest =>
          ⟨{ impl with buffer_ := buf_rest ++ [p.value], putters_ := prest },
           [⟨.put p.id none, .deferred⟩,
            ⟨.get getter (some v) none, .immediate⟩],
           false⟩
      | [] =>
          ⟨{ impl with buffer_ := buf_rest },
           [⟨.get getter (some v) none, .immediate⟩],
           false⟩
  | [] =>
      match impl.putters_ with
      | p :: prest =>
          ⟨{ impl with putters_ := prest },
           [⟨.put p.id none, .deferred⟩,
            ⟨.get getter (some p.value) none, .immediate⟩],
           false⟩
      | [] =>
          if impl.open_ then
            ⟨{ impl with getters_ := impl.getters_ ++ [getter] }, [], true⟩
          else
            ⟨impl, [⟨.get getter none (some .broken_pipe), .immediate⟩], false⟩

/-- Modelled from the spec: the body of `channel_service::close` is in
`asio/detail/impl/channel_service.ipp`, which is not part of the sources;
only its declaration (channel_service.hpp, line 110) is.  Per spec §4.4:
set `is_open = false`, then resolve every queued getter and every queued
putter with error `BrokenChannel`, dispatching each immediately; buffered
values are not discarded, and both wait queues are drained to empty. -/
def close {T : Type} (impl : ChannelState T) : StepOut T :=
  ⟨{ impl with open_ := false, putters_ := [], getters_ := [] },
   impl.getters_.map (fun g => ⟨.get g none (some .broken_pipe), .immediate⟩)
     ++ impl.putters_.map (fun p => ⟨.put p.id (some .broken_pipe), .immediate⟩),
   false⟩

/-- Modelled from the spec: the body of `channel_service::cancel` is in
`asio/detail/impl/channel_service.ipp`, which is not part of the sources;
only its declaration (channel_service.hpp, line 113) is.  Per spec §4.4:
resolve every queued getter and putter with error `OperationCancelled`,
dispatching each immediately, without changing `is_open`; both wait
queues are drained to empty. -/
def cancel {T : Type} (impl : ChannelState T) : StepOut T :=
  ⟨{ impl with putters_ := [], getters_ := [] },
   impl.getters_.map (fun g => ⟨.get g none (some .operation_cancelled), .immediate⟩)
     ++ impl.putters_.map (fun p => ⟨.put p.id (some .operation_cancelled), .immediate⟩),
   false⟩

/-- Modelled from the spec: the body of `channel_service::destroy` is in
`asio/detail/impl/channel_service.ipp`, which is not part of the sources.
Per spec §4.1 and §7, destroy unregisters the channel and cancels all
operations still queued, delivering `OperationCancelled`; on the
per-channel state it acts as `cancel`. -/
def destroy {T : Type} (impl : ChannelState T) : StepOut T :=
  cancel impl

/-- The handler id an operation record belongs to. -/
def Op.opId {T : Type} : Op T → Nat
  | .put i _ => i
  | .get i _ _ => i

/-- The error slot of an operation record. -/
def Op.ec {T : Type} : Op T → Option ChannelError
  | .put _ e => e
  | .get _ _ e => e

/-- Repeatedly submit gets (with the given handler ids, in order) and
collect every completion the engine posts. -/
def drainGets {T : Type} (impl : ChannelState T) (ids : List Nat) :
    List (Completion T) :=
  match ids with
  | [] => []
  | g :: rest =>
      (do_get impl g).completions ++ drainGets (do_get impl g).state rest

/-- One submission or control event of a channel history.  Handler ids
are assigned by the run: the n-th submission (put or get) gets id n. -/
inductive TraceAct (T : Type) where
  | put (v : T)
  | get
  | close
  | cancel
  | destroy
deriving DecidableEq, Repr

/-- A channel history in progress: current channel state, every
completion posted to the executor so far, and the next fresh handler id. -/
structure TraceState (T : Type) where
  chan : ChannelState T
  completions : List (Completion T)
  next_id : Nat
deriving DecidableEq, Repr

/-- Apply one history event: submissions run the matching engine with a
fresh handler id; close/cancel/destroy run the control operations. -/
def traceStep {T : Type} (ts : TraceState T) (a : TraceAct T) : TraceState T :=
  match a with
  | .put v =>
      let out := do_put ts.chan ⟨ts.next_id, v⟩
      ⟨out.state, ts.completions ++ out.completions, ts.next_id + 1⟩
  | .get =>
      let out := do_get ts.chan ts.next_id
      ⟨out.state, ts.completions ++ out.completions, ts.next_id + 1⟩
  | .close =>
      let out := close ts.chan
      ⟨out.state, ts.completions ++ out.completions, ts.next_id⟩
  | .cancel =>
      let out := cancel ts.chan
      ⟨out.state, ts.completions ++ out.completions, ts.next_id⟩
  | .destroy =>
      let out := destroy ts.chan
      ⟨out.state, ts.completions ++ out.completions, ts.next_id⟩

/-- Run a whole history against a freshly constructed channel of the
given capacity. -/
def runTrace {T : Type} (max_buffer_size : Nat) (acts : List (TraceAct T)) :
    TraceState T :=
  acts.foldl traceStep ⟨construct T max_buffer_size, [], 0⟩

/-- The multiset of handler ids of the completions posted so far. -/
def resolvedIds {T : Type} (comps : List (Completion T)) : Multiset Nat :=
  ↑(comps.map (fun c => c.op.opId))

/-- The multiset of handler ids still parked in the wait queues. -/
def queuedIds {T : Type} (impl : ChannelState T) : Multiset Nat :=
  ↑(impl.putters_.map Putter.id ++ impl.getters_)

/-- C1: on an open value channel, an asynchronous put with a queued getter
pops the front getter, moves the value directly into it (the buffer is not
touched), dispatches the getter deferred and the putter immediate, both
with no error; with no queued getter and a non-full buffer it appends the
value at the back of the buffer and dispatches the putter immediate with no
error; and with no queued getter and a full buffer it appends the putter at
the back of the putters queue, signals `work_started`, and dispatches
nothing. -/
theorem do_put_open_spec {T : Type} (impl : ChannelState T) (p : Putter T)
    (hopen : impl.open_ = true) :
    (∀ g rest, impl.getters_ = g :: rest →
      do_put impl p =
        ⟨{ impl with getters_ := rest },
         [⟨.get g (some p.value) none, .deferred⟩,
          ⟨.put p.id none, .immediate⟩], false⟩)
    ∧ (impl.getters_ = [] → impl.buffer_.length < impl.max_buffer_size_ →
      do_put impl p =
        ⟨{ impl with buffer_ := impl.buffer_ ++ [p.value] },
         [⟨.put p.id none, .immediate⟩], false⟩)
    ∧ (impl.getters_ = [] → ¬ impl.buffer_.length < impl.max_buffer_size_ →
      do_put impl p =
        ⟨{ impl with putters_ := impl.putters_ ++ [p] }, [], true⟩) := by
  refine ⟨fun g rest hg => ?_, fun hg hlt => ?_, fun hg hge => ?_⟩
  · simp [do_put, hopen, hg]
  · simp [do_put, hopen, hg, hlt]
  · simp [do_put, hopen, hg, hge]

/-- Witness for C1: the direct hand-off branch at a concrete state. -/
theorem do_put_open_spec_witness :
    (⟨true, 1, [], [], [7]⟩ : ChannelState Nat).open_ = true ∧
    do_put (⟨true, 1, [], [], [7]⟩ : ChannelState Nat) ⟨0, 5⟩ =
      ⟨⟨true, 1, [], [], []⟩,
       [⟨.get 7 (some 5) none, .deferred⟩, ⟨.put 0 none, .immediate⟩],
       false⟩ :=
  ⟨rfl, (do_put_open_spec (⟨true, 1, [], [], [7]⟩ : ChannelState Nat)
    ⟨0, 5⟩ rfl).1 7 [] rfl⟩

/-- C2: an asynchronous get with a non-empty buffer pops the front value
into the getter and, when a putter is queued, moves the putter's value
into the freed back slot of the buffer, pops that putter and dispatches it
deferred; in both sub-cases the getter is dispatched immediate with no
error.  With an empty buffer and a queued putter, the putter's value is
moved directly into the getter, the putter is popped and dispatched
deferred, and the getter is dispatched immediate.  With an empty buffer,
no putter and the channel open, the getter is appended to the getters
queue, `work_started` is signalled, and nothing is dispatched. -/
theorem do_get_spec {T : Type} (impl : ChannelState T) (g : Nat) :
    (∀ v brest p prest, impl.buffer_ = v :: brest →
        impl.putters_ = p :: prest →
      do_get impl g =
        ⟨{ impl with buffer_ := brest ++ [p.value], putters_ := prest },
         [⟨.put p.id none, .deferred⟩,
          ⟨.get g (some v) none, .immediate⟩], false⟩)
    ∧ (∀ v brest, impl.buffer_ = v :: brest → impl.putters_ = [] →
      do_get impl g =
        ⟨{ impl with buffer_ := brest },
         [⟨.get g (some v) none, .immediate⟩], false⟩)
    ∧ (∀ p prest, impl.buffer_ = [] → impl.putters_ = p :: prest →
      do_get impl g =
        ⟨{ impl with putters_ := prest },
         [⟨.put p.id none, .deferred⟩,
          ⟨.get g (some p.value) none, .immediate⟩], false⟩)
    ∧ (impl.buffer_ = [] → impl.putters_ = [] → impl.open_ = true →
      do_get impl g =
        ⟨{ impl with getters_ := impl.getters_ ++ [g] }, [], true⟩) := by
  refine ⟨fun v brest p prest hb hp => ?_, fun v brest hb hp => ?_,
    fun p prest hb hp => ?_, fun hb hp hopen => ?_⟩
  · simp [do_get, hb, hp]
  · simp [do_get, hb, hp]
  · simp [do_get, hb, hp]
  · simp [do_get, hb, hp, hopen]

/-- Witness for C2: the refill branch at a concrete state. -/
theorem do_get_spec_witness :
    (⟨true, 1, [4], [⟨9, 6⟩], []⟩ : ChannelState Nat).buffer_ = [4] ∧
    (⟨true, 1, [4], [⟨9, 6⟩], []⟩ : ChannelState Nat).putters_ = [⟨9, 6⟩] ∧
    do_get (⟨true, 1, [4], [⟨9, 6⟩], []⟩ : ChannelState Nat) 2 =
      ⟨⟨true, 1, [6], [], []⟩,
       [⟨.put 9 none, .deferred⟩, ⟨.get 2 (some 4) none, .immediate⟩],
       false⟩ :=
  ⟨rfl, rfl, (do_get_spec (⟨true, 1, [4], [⟨9, 6⟩], []⟩ : ChannelState Nat)
    2).1 4 [] ⟨9, 6⟩ [] rfl rfl⟩

theorem resolvedIds_append {T : Type} (l1 l2 : List (Completion T)) :
    resolvedIds (l1 ++ l2) = resolvedIds l1 + resolvedIds l2 := by
  simp only [resolvedIds, List.map_append]
  exact (Multiset.coe_add _ _).symm

theorem close_resolvedIds {T : Type} (impl : ChannelState T) :
    resolvedIds (close impl).completions = queuedIds impl := by
  simp only [close, resolvedIds, queuedIds, List.map_append, List.map_map]
  rw [Multiset.coe_eq_coe]
  refine List.Perm.trans (List.Perm.append ?_ ?_) List.perm_append_comm.symm
  · have h : ((fun c : Completion T => c.op.opId) ∘ (fun g =>
        (⟨Op.get g none (some ChannelError.broken_pipe),
          DispatchKind.immediate⟩ : Completion T))) = id := by
      funext g; rfl
    rw [h, List.map_id]
  · have h : ((fun c : Completion T => c.op.opId) ∘ (fun p : Putter T =>
        (⟨Op.put p.id (some ChannelError.broken_pipe),
          DispatchKind.immediate⟩ : Completion T))) = Putter.id := by
      funext p; rfl
    rw [h]

theorem cancel_resolvedIds {T : Type} (impl : ChannelState T) :
    resolvedIds (cancel impl).completions = queuedIds impl := by
  simp only [cancel, resolvedIds, queuedIds, List.map_append, List.map_map]
  rw [Multiset.coe_eq_coe]
  refine List.Perm.trans (List.Perm.append ?_ ?_) List.perm_append_comm.symm
  · have h : ((fun c : Completion T => c.op.opId) ∘ (fun g =>
        (⟨Op.get g none (some ChannelError.operation_cancelled),
          DispatchKind.immediate⟩ : Completion T))) = id := by
      funext g; rfl
    rw [h, List.map_id]
  · have h : ((fun c : Completion T => c.op.opId) ∘ (fun p : Putter T =>
        (⟨Op.put p.id (some ChannelError.operation_cancelled),
          DispatchKind.immediate⟩ : Completion T))) = Putter.id := by
      funext p; rfl
    rw [h]

/-- C3: close sets `is_open` to false, resolves every queued getter and
every queued putter with `broken_pipe` dispatched immediately (one
completion per queued operation, no others), leaves the buffer and the
capacity unchanged, and empties both wait queues. -/
theorem close_spec {T : Type} (impl : ChannelState T) :
    (close impl).state.open_ = false
    ∧ (close impl).state.putters_ = []
    ∧ (close impl).state.getters_ = []
    ∧ (close impl).state.buffer_ = impl.buffer_
    ∧ (close impl).state.max_buffer_size_ = impl.max_buffer_size_
    ∧ (close impl).completions =
        impl.getters_.map
          (fun g => ⟨.get g none (some .broken_pipe), .immediate⟩)
        ++ impl.putters_.map
          (fun p => ⟨.put p.id (some .broken_pipe), .immediate⟩)
    ∧ resolvedIds (close impl).completions = queuedIds impl
    ∧ (close impl).work_started = false := by
  exact ⟨rfl, rfl, rfl, rfl, rfl, rfl, close_resolvedIds impl, rfl⟩

/-- C4: cancel resolves every queued getter and putter with
`operation_cancelled` (not `broken_pipe`) dispatched immediately, leaves
`is_open`, the buffer and the capacity unchanged, and empties both wait
queues; afterwards, puts and gets behave exactly as on a channel with the
same open flag and buffer contents and empty wait queues. -/
theorem cancel_spec {T : Type} (impl : ChannelState T) :
    (cancel impl).state.open_ = impl.open_
    ∧ (cancel impl).state.putters_ = []
    ∧ (cancel impl).state.getters_ = []
    ∧ (cancel impl).state.buffer_ = impl.buffer_
    ∧ (cancel impl).state.max_buffer_size_ = impl.max_buffer_size_
    ∧ (cancel impl).completions =
        impl.getters_.map
          (fun g => ⟨.get g none (some .operation_cancelled), .immediate⟩)
        ++ impl.putters_.map
          (fun p => ⟨.put p.id (some .operation_cancelled), .immediate⟩)
    ∧ (∀ c ∈ (cancel impl).completions, c.op.ec = some .operation_cancelled)
    ∧ (∀ p : Putter T, do_put (cancel impl).state p =
        do_put ⟨impl.open_, impl.max_buffer_size_, impl.buffer_, [], []⟩ p)
    ∧ (∀ g : Nat, do_get (cancel impl).state g =
        do_get ⟨impl.open_, impl.max_buffer_size_, impl.buffer_, [], []⟩ g) := by
  refine ⟨rfl, rfl, rfl, rfl, rfl, rfl, ?_, fun p => rfl, fun g => rfl⟩
  intro c hc
  simp [cancel] at hc
  rcases hc with ⟨g, _, rfl⟩ | ⟨p, _, rfl⟩ <;> rfl

/-- Witness for C4: cancelling a channel with one queued putter delivers
`operation_cancelled` to it. -/
theorem cancel_spec_witness :
    (⟨.put 5 (some .operation_cancelled), .immediate⟩ : Completion Nat)
        ∈ (cancel (⟨true, 0, [], [⟨5, 3⟩], []⟩ : ChannelState Nat)).completions
    ∧ (⟨.put 5 (some .operation_cancelled),
        .immediate⟩ : Completion Nat).op.ec = some .operation_cancelled :=
  ⟨by decide,
   (cancel_spec (⟨true, 0, [], [⟨5, 3⟩], []⟩ : ChannelState Nat)).2.2.2.2.2.2.1
     ⟨.put 5 (some .operation_cancelled), .immediate⟩ (by decide)⟩

/-- C9: close is idempotent: a second close leaves the state of the first
unchanged and posts no further completions. -/
theorem close_idempotent {T : Type} (impl : ChannelState T) :
    (close (close impl).state).state = (close impl).state
    ∧ (close (close impl).state).completions = [] := by
  constructor <;> rfl

/-- C10: the error paths do not mutate the channel: a put on a closed
channel, and a get on a closed channel with empty buffer and no queued
putter, deliver `broken_pipe` immediately and return the state exactly as
it was. -/
theorem error_resolution_preserves_state {T : Type}
    (impl : ChannelState T) (p : Putter T) (g : Nat) :
    (impl.open_ = false →
      do_put impl p =
        ⟨impl, [⟨.put p.id (some .broken_pipe), .immediate⟩], false⟩)
    ∧ (impl.open_ = false → impl.buffer_ = [] → impl.putters_ = [] →
      do_get impl g =
        ⟨impl, [⟨.get g none (some .broken_pipe), .immediate⟩], false⟩) := by
  refine ⟨fun hc => ?_, fun hc hb hp => ?_⟩
  · simp [do_put, hc]
  · simp [do_get, hc, hb, hp]

/-! Step-preservation lemmas for the reachable-state invariants. -/

theorem do_put_max {T : Type} (s : ChannelState T) (p : Putter T) :
    (do_put s p).state.max_buffer_size_ = s.max_buffer_size_ := by
  unfold do_put
  split
  · rfl
  · split
    · rfl
    · split
      · rfl
      · rfl

theorem do_get_max {T : Type} (s : ChannelState T) (g : Nat) :
    (do_get s g).state.max_buffer_size_ = s.max_buffer_size_ := by
  unfold do_get
  split
  · split
    · rfl
    · rfl
  · split
    · rfl
    · split
      · rfl
      · rfl

theorem do_put_buffer_le {T : Type} (s : ChannelState T) (p : Putter T)
    (h : s.buffer_.length ≤ s.max_buffer_size_) :
    (do_put s p).state.buffer_.length ≤ (do_put s p).state.max_buffer_size_ := by
  unfold do_put
  split
  · exact h
  · split
    · exact h
    · split
      · rename_i hlt
        simp only [List.length_append, List.length_cons, List.length_nil]
        omega
      · exact h

theorem do_get_buffer_le {T : Type} (s : ChannelState T) (g : Nat)
    (h : s.buffer_.length ≤ s.max_buffer_size_) :
    (do_get s g).state.buffer_.length ≤ (do_get s g).state.max_buffer_size_ := by
  unfold do_get
  split
  · rename_i v brest hb
    split
    · simp only [List.length_append, List.length_cons, List.length_nil]
      rw [hb] at h
      simp only [List.length_cons] at h
      omega
    · rw [hb] at h
      simp only [List.length_cons] at h
      simp only [List.length_cons]
      omega
  · split
    · exact h
    · split
      · exact h
      · exact h

theorem do_put_queues {T : Type} (s : ChannelState T) (p : Putter T)
    (h : s.putters_ = [] ∨ s.getters_ = []) :
    (do_put s p).state.putters_ = [] ∨ (do_put s p).state.getters_ = [] := by
  unfold do_put
  split
  · exact h
  · split
    · rename_i g rest hg
      rcases h with h | h
      · exact Or.inl h
      · rw [h] at hg
        cases hg
    · rename_i hg
      split
      · exact Or.inr hg
      · exact Or.inr hg

theorem do_get_queues {T : Type} (s : ChannelState T) (g : Nat)
    (h : s.putters_ = [] ∨ s.getters_ = []) :
    (do_get s g).state.putters_ = [] ∨ (do_get s g).state.getters_ = [] := by
  unfold do_get
  split
  · split
    · rename_i p prest hp
      rcases h with h | h
      · rw [h] at hp
        cases hp
      · exact Or.inr h
    · rename_i hp
      exact Or.inl hp
  · split
    · rename_i p prest hp
      rcases h with h | h
      · rw [h] at hp
        cases hp
      · exact Or.inr h
    · rename_i hp
      split
      · exact Or.inl hp
      · exact Or.inl hp

theorem traceStep_max {T : Type} (ts : TraceState T) (a : TraceAct T) :
    (traceStep ts a).chan.max_buffer_size_ = ts.chan.max_buffer_size_ := by
  cases a with
  | put v => exact do_put_max ts.chan ⟨ts.next_id, v⟩
  | get => exact do_get_max ts.chan ts.next_id
  | close => rfl
  | cancel => rfl
  | destroy => rfl

theorem traceStep_buffer_le {T : Type} (ts : TraceState T) (a : TraceAct T)
    (h : ts.chan.buffer_.length ≤ ts.chan.max_buffer_size_) :
    (traceStep ts a).chan.buffer_.length ≤
      (traceStep ts a).chan.max_buffer_size_ := by
  cases a with
  | put v => exact do_put_buffer_le ts.chan ⟨ts.next_id, v⟩ h
  | get => exact do_get_buffer_le ts.chan ts.next_id h
  | close => exact h
  | cancel => exact h
  | destroy => exact h

theorem traceStep_queues {T : Type} (ts : TraceState T) (a : TraceAct T)
    (h : ts.chan.putters_ = [] ∨ ts.chan.getters_ = []) :
    (traceStep ts a).chan.putters_ = [] ∨
      (traceStep ts a).chan.getters_ = [] := by
  cases a with
  | put v => exact do_put_queues ts.chan ⟨ts.next_id, v⟩ h
  | get => exact do_get_queues ts.chan ts.next_id h
  | close => exact Or.inl rfl
  | cancel => exact Or.inl rfl
  | destroy => exact Or.inl rfl

theorem foldl_max {T : Type} (acts : List (TraceAct T)) :
    ∀ ts : TraceState T,
      (acts.foldl traceStep ts).chan.max_buffer_size_ =
        ts.chan.max_buffer_size_ := by
  induction acts with
  | nil => intro ts; rfl
  | cons a rest ih =>
      intro ts
      exact (ih (traceStep ts a)).trans (traceStep_max ts a)

theorem foldl_buffer_le {T : Type} (acts : List (TraceAct T)) :
    ∀ ts : TraceState T, ts.chan.buffer_.length ≤ ts.chan.max_buffer_size_ →
      (acts.foldl traceStep ts).chan.buffer_.length ≤
        (acts.foldl traceStep ts).chan.max_buffer_size_ := by
  induction acts with
  | nil => intro ts h; exact h
  | cons a rest ih =>
      intro ts h
      exact ih (traceStep ts a) (traceStep_buffer_le ts a h)

theorem foldl_queues {T : Type} (acts : List (TraceAct T)) :
    ∀ ts : TraceState T, ts.chan.putters_ = [] ∨ ts.chan.getters_ = [] →
      (acts.foldl traceStep ts).chan.putters_ = [] ∨
        (acts.foldl traceStep ts).chan.getters_ = [] := by
  induction acts with
  | nil => intro ts h; exact h
  | cons a rest ih =>
      intro ts h
      exact ih (traceStep ts a) (traceStep_queues ts a h)

/-- C5: on a channel constructed with capacity `cap`, after any sequence
of put, get, close and cancel operations the buffer never holds more than
`cap` elements. -/
theorem buffer_never_exceeds_capacity {T : Type} (cap : Nat)
    (acts : List (TraceAct T)) :
    (runTrace cap acts).chan.buffer_.length ≤ cap := by
  have h1 := foldl_buffer_le acts ⟨construct T cap, [], 0⟩
    (by simp [construct])
  have h2 := foldl_max acts (T := T) ⟨construct T cap, [], 0⟩
  unfold runTrace
  calc (List.foldl traceStep ⟨construct T cap, [], 0⟩ acts).chan.buffer_.length
      ≤ (List.foldl traceStep ⟨construct T cap, [], 0⟩ acts).chan.max_buffer_size_ := h1
    _ = cap := h2

/-- C6: in every state reachable from a fresh channel by put, get, close
and cancel operations, the putters queue and the getters queue are never
both non-empty. -/
theorem queues_never_both_nonempty {T : Type} (cap : Nat)
    (acts : List (TraceAct T)) :
    (runTrace cap acts).chan.putters_ = [] ∨
      (runTrace cap acts).chan.getters_ = [] :=
  foldl_queues acts ⟨construct T cap, [], 0⟩ (Or.inl rfl)

theorem put_broken_iff {T : Type} (s : ChannelState T) (p : Putter T) :
    (∃ c ∈ (do_put s p).completions, c.op.ec = some ChannelError.broken_pipe)
      ↔ s.open_ = false := by
  unfold do_put
  split
  · rename_i h
    simp only [Bool.not_eq_true'] at h
    simp [h, Op.ec]
  · rename_i h
    simp only [Bool.not_eq_true', Bool.not_eq_false] at h
    split
    · simp [h, Op.ec]
    · split
      · simp [h, Op.ec]
      · simp [h, Op.ec]

theorem get_broken_iff {T : Type} (s : ChannelState T) (g : Nat) :
    (∃ c ∈ (do_get s g).completions, c.op.ec = some ChannelError.broken_pipe)
      ↔ s.open_ = false ∧ s.buffer_ = [] ∧ s.putters_ = [] := by
  unfold do_get
  split
  · rename_i v brest hb
    split
    · simp [hb, Op.ec]
    · simp [hb, Op.ec]
  · rename_i hb
    split
    · rename_i p prest hp
      simp [hb, hp, Op.ec]
    · rename_i hp
      split
      · rename_i ho
        simp [hb, hp, ho, Op.ec]
      · rename_i ho
        simp only [Bool.not_eq_true] at ho
        simp [hb, hp, ho, Op.ec]

theorem drainGets_closed {T : Type} :
    ∀ (ids : List Nat) (s : ChannelState T),
      s.open_ = false → s.putters_ = [] →
      drainGets s ids =
        (List.zipWith (fun i v =>
            (⟨Op.get i (some v) none, DispatchKind.immediate⟩ : Completion T))
          ids s.buffer_)
        ++ ((ids.drop s.buffer_.length).map (fun i =>
            (⟨Op.get i none (some ChannelError.broken_pipe),
              DispatchKind.immediate⟩ : Completion T))) := by
  intro ids
  induction ids with
  | nil => intro s hopen hput; simp [drainGets]
  | cons g rest ih =>
      intro s hopen hput
      cases hb : s.buffer_ with
      | nil =>
          have hstep : do_get s g =
              ⟨s, [⟨Op.get g none (some ChannelError.broken_pipe),
                DispatchKind.immediate⟩], false⟩ := by
            simp [do_get, hb, hput, hopen]
          have ih2 := ih s hopen hput
          rw [hb] at ih2
          simp only [drainGets, hstep, hb]
          simp [ih2, hb]
      | cons v brest =>
          have hstep : do_get s g =
              ⟨{ s with buffer_ := brest },
               [⟨Op.get g (some v) none, DispatchKind.immediate⟩], false⟩ := by
            simp [do_get, hb, hput]
          have ih2 := ih { s with buffer_ := brest } hopen hput
          simp only [drainGets, hstep, hb]
          simp [ih2]

/-- C7: an operation fails with `broken_pipe` exactly when: a put is
submitted on a closed channel (always, dispatched immediately, the state
untouched), or a get is submitted on a closed channel whose buffer is
empty and whose putters queue is empty; while buffered values remain
after close, successive gets still succeed, returning the buffered values
in order until exhausted, after which every further get fails. -/
theorem broken_pipe_exactly_when {T : Type} (s : ChannelState T)
    (p : Putter T) (g : Nat) (ids : List Nat) :
    ((∃ c ∈ (do_put s p).completions,
        c.op.ec = some ChannelError.broken_pipe) ↔ s.open_ = false)
    ∧ ((∃ c ∈ (do_get s g).completions,
        c.op.ec = some ChannelError.broken_pipe) ↔
          s.open_ = false ∧ s.buffer_ = [] ∧ s.putters_ = [])
    ∧ (s.open_ = false →
        do_put s p =
          ⟨s, [⟨.put p.id (some .broken_pipe), .immediate⟩], false⟩)
    ∧ (s.open_ = false → s.putters_ = [] →
        drainGets s ids =
          (List.zipWith (fun i v =>
              (⟨Op.get i (some v) none,
                DispatchKind.immediate⟩ : Completion T)) ids s.buffer_)
          ++ ((ids.drop s.buffer_.length).map (fun i =>
              (⟨Op.get i none (some ChannelError.broken_pipe),
                DispatchKind.immediate⟩ : Completion T)))) := by
  refine ⟨put_broken_iff s p, get_broken_iff s g, fun hc => ?_,
    drainGets_closed ids s⟩
  simp [do_put, hc]

/-- Witness for C7: a closed channel holding one buffered value answers
the first get with the value and fails the second. -/
theorem broken_pipe_exactly_when_witness :
    (⟨false, 1, [7], [], []⟩ : ChannelState Nat).open_ = false ∧
    (⟨false, 1, [7], [], []⟩ : ChannelState Nat).putters_ = [] ∧
    drainGets (⟨false, 1, [7], [], []⟩ : ChannelState Nat) [3, 4] =
      [⟨.get 3 (some 7) none, .immediate⟩,
       ⟨.get 4 none (some .broken_pipe), .immediate⟩] := by
  refine ⟨rfl, rfl, ?_⟩
  have h := (broken_pipe_exactly_when
    (⟨false, 1, [7], [], []⟩ : ChannelState Nat) ⟨0, 0⟩ 0 [3, 4]).2.2.2 rfl rfl
  rw [h]
  rfl

/-- Witness for C10: a concrete closed channel. -/
theorem error_resolution_preserves_state_witness :
    (⟨false, 2, [], [], []⟩ : ChannelState Nat).open_ = false ∧
    do_put (⟨false, 2, [], [], []⟩ : ChannelState Nat) ⟨0, 3⟩ =
      ⟨⟨false, 2, [], [], []⟩,
       [⟨.put 0 (some .broken_pipe), .immediate⟩], false⟩ :=
  ⟨rfl, (error_resolution_preserves_state
    (⟨false, 2, [], [], []⟩ : ChannelState Nat) ⟨0, 3⟩ 1).1 rfl⟩

theorem do_put_ids {T : Type} (s : ChannelState T) (p : Putter T) :
    resolvedIds (do_put s p).completions + queuedIds (do_put s p).state
      = p.id ::ₘ queuedIds s := by
  unfold do_put
  split
  · simp only [resolvedIds, queuedIds, List.map_cons, List.map_nil, Op.opId]
    rw [← Multiset.cons_coe, Multiset.coe_nil, ← Multiset.singleton_add]
    simp only [← Multiset.singleton_add]
    abel
  · split
    · rename_i g rest hg
      simp only [resolvedIds, queuedIds, List.map_cons, List.map_nil,
        List.map_append, Op.opId, hg]
      rw [← Multiset.cons_coe, ← Multiset.cons_coe, Multiset.coe_nil,
        ← Multiset.coe_add, ← Multiset.coe_add, ← Multiset.cons_coe,
        ← Multiset.singleton_add, ← Multiset.singleton_add,
        ← Multiset.singleton_add]
      simp only [← Multiset.singleton_add]
      abel
    · split
      · simp only [resolvedIds, queuedIds, List.map_cons, List.map_nil, Op.opId]
        rw [← Multiset.cons_coe, Multiset.coe_nil, ← Multiset.singleton_add]
        simp only [← Multiset.singleton_add]
        abel
      · simp only [resolvedIds, queuedIds, List.map_nil, List.map_append,
          List.map_cons, Op.opId, Multiset.coe_nil]
        rw [← Multiset.coe_add, ← Multiset.coe_add, ← Multiset.coe_add,
          ← Multiset.cons_coe, Multiset.coe_nil, ← Multiset.singleton_add]
        simp only [← Multiset.singleton_add]
        abel

theorem do_get_ids {T : Type} (s : ChannelState T) (g : Nat) :
    resolvedIds (do_get s g).completions + queuedIds (do_get s g).state
      = g ::ₘ queuedIds s := by
  unfold do_get
  split
  · split
    · rename_i v brest hb p prest hp
      simp only [resolvedIds, queuedIds, List.map_cons, List.map_nil,
        List.map_append, Op.opId, hp]
      rw [← Multiset.cons_coe, ← Multiset.cons_coe, Multiset.coe_nil,
        ← Multiset.coe_add, ← Multiset.coe_add, ← Multiset.cons_coe,
        ← Multiset.singleton_add, ← Multiset.singleton_add,
        ← Multiset.singleton_add]
      simp only [← Multiset.singleton_add]
      abel
    · simp only [resolvedIds, queuedIds, List.map_cons, List.map_nil, Op.opId]
      rw [← Multiset.cons_coe, Multiset.coe_nil, ← Multiset.singleton_add]
      simp only [← Multiset.singleton_add]
      abel
  · split
    · rename_i hb p prest hp
      simp only [resolvedIds, queuedIds, List.map_cons, List.map_nil,
        List.map_append, Op.opId, hp]
      rw [← Multiset.cons_coe, ← Multiset.cons_coe, Multiset.coe_nil,
        ← Multiset.coe_add, ← Multiset.coe_add, ← Multiset.cons_coe,
        ← Multiset.singleton_add, ← Multiset.singleton_add,
        ← Multiset.singleton_add]
      simp only [← Multiset.singleton_add]
      abel
    · split
      · simp only [resolvedIds, queuedIds, List.map_nil, List.map_append,
          Op.opId, Multiset.coe_nil]
        rw [← Multiset.coe_add, ← Multiset.coe_add, ← Multiset.coe_add,
          ← Multiset.cons_coe, Multiset.coe_nil, ← Multiset.singleton_add]
        simp only [← Multiset.singleton_add]
        abel
      · simp only [resolvedIds, queuedIds, List.map_cons, List.map_nil, Op.opId]
        rw [← Multiset.cons_coe, Multiset.coe_nil, ← Multiset.singleton_add]
        simp only [← Multiset.singleton_add]
        abel

theorem close_ids {T : Type} (s : ChannelState T) :
    resolvedIds (close s).completions + queuedIds (close s).state
      = queuedIds s := by
  rw [close_resolvedIds]
  have h : queuedIds (close s).state = 0 := rfl
  rw [h, add_zero]

theorem cancel_ids {T : Type} (s : ChannelState T) :
    resolvedIds (cancel s).completions + queuedIds (cancel s).state
      = queuedIds s := by
  rw [cancel_resolvedIds]
  have h : queuedIds (cancel s).state = 0 := rfl
  rw [h, add_zero]

theorem traceStep_ids {T : Type} (ts : TraceState T) (a : TraceAct T)
    (h : resolvedIds ts.completions + queuedIds ts.chan
          = Multiset.range ts.next_id) :
    resolvedIds (traceStep ts a).completions + queuedIds (traceStep ts a).chan
      = Multiset.range (traceStep ts a).next_id := by
  cases a with
  | put v =>
      show resolvedIds (ts.completions ++ (do_put ts.chan ⟨ts.next_id, v⟩).completions)
            + queuedIds (do_put ts.chan ⟨ts.next_id, v⟩).state
          = Multiset.range (ts.next_id + 1)
      rw [resolvedIds_append, add_assoc, do_put_ids, Multiset.range_succ, ← h]
      simp only [← Multiset.singleton_add]
      abel
  | get =>
      show resolvedIds (ts.completions ++ (do_get ts.chan ts.next_id).completions)
            + queuedIds (do_get ts.chan ts.next_id).state
          = Multiset.range (ts.next_id + 1)
      rw [resolvedIds_append, add_assoc, do_get_ids, Multiset.range_succ, ← h]
      simp only [← Multiset.singleton_add]
      abel
  | close =>
      show resolvedIds (ts.completions ++ (close ts.chan).completions)
            + queuedIds (close ts.chan).state
          = Multiset.range ts.next_id
      rw [resolvedIds_append, add_assoc, close_ids, h]
  | cancel =>
      show resolvedIds (ts.completions ++ (cancel ts.chan).completions)
            + queuedIds (cancel ts.chan).state
          = Multiset.range ts.next_id
      rw [resolvedIds_append, add_assoc, cancel_ids, h]
  | destroy =>
      show resolvedIds (ts.completions ++ (cancel ts.chan).completions)
            + queuedIds (cancel ts.chan).state
          = Multiset.range ts.next_id
      rw [resolvedIds_append, add_assoc, cancel_ids, h]

theorem foldl_ids {T : Type} (acts : List (TraceAct T)) :
    ∀ ts : TraceState T,
      resolvedIds ts.completions + queuedIds ts.chan
        = Multiset.range ts.next_id →
      resolvedIds (acts.foldl traceStep ts).completions
          + queuedIds (acts.foldl traceStep ts).chan
        = Multiset.range (acts.foldl traceStep ts).next_id := by
  induction acts with
  | nil => intro ts h; exact h
  | cons a rest ih =>
      intro ts h
      exact ih (traceStep ts a) (traceStep_ids ts a h)

/-- C8: across any history of put, get, close, cancel and destroy events
ending in destroy, every submitted operation (handler id below the final
fresh-id counter) is resolved exactly once: its id occurs exactly once
among the completions handed to the executor, and ids never submitted
occur zero times. -/
theorem each_op_resolved_exactly_once {T : Type} (cap : Nat)
    (acts : List (TraceAct T)) (i : Nat) :
    Multiset.count i
        (resolvedIds (runTrace cap (acts ++ [TraceAct.destroy])).completions)
      = if i < (runTrace cap (acts ++ [TraceAct.destroy])).next_id
          then 1 else 0 := by
  have h0 : resolvedIds ([] : List (Completion T))
      + queuedIds (construct T cap) = Multiset.range 0 := rfl
  have hinv := foldl_ids (acts ++ [TraceAct.destroy])
    ⟨construct T cap, [], 0⟩ h0
  have hq : queuedIds ((acts ++ [TraceAct.destroy]).foldl traceStep
      (⟨construct T cap, [], 0⟩ : TraceState T)).chan = 0 := by
    rw [List.foldl_append]
    rfl
  rw [hq, add_zero] at hinv
  show Multiset.count i
      (resolvedIds ((acts ++ [TraceAct.destroy]).foldl traceStep
        (⟨construct T cap, [], 0⟩ : TraceState T)).completions)
    = if i < ((acts ++ [TraceAct.destroy]).foldl traceStep
        (⟨construct T cap, [], 0⟩ : TraceState T)).next_id then 1 else 0
  rw [hinv]
  by_cases hi : i < ((acts ++ [TraceAct.destroy]).foldl traceStep
    (⟨construct T cap, [], 0⟩ : TraceState T)).next_id
  · rw [if_pos hi]
    exact Multiset.count_eq_one_of_mem (Multiset.nodup_range _)
      (Multiset.mem_range.mpr hi)
  · rw [if_neg hi]
    exact Multiset.count_eq_zero_of_not_mem
      (fun hmem => hi (Multiset.mem_range.mp hmem))

end AsioChannel
